import Mathlib

/-!
Verification of the custom-trackers configuration core of this repository
(package `ingester`: `ActiveSeriesCustomTrackersConfig` and friends, exercised
by `pkg/ingester/active_series_custom_trackers_config_test.go`) and of the
`markblocks` command-line tool (`uploadMarks`).

The implementation file of the configuration core is not part of the source
tree (only its test file is), so the TrackerSet / OverrideResolver /
OverrideSnapshotProvider operations are modelled from the specification
(spec.md sections 3, 4, 6 and 7), with identifiers taken from the spec and
from the test file.  Strings are embedded as lists of characters (`Str`).
The `markblocks` tool is embedded from its source file (`uploadMarks`).
-/

abbrev Str := List Char

/-- A TrackerSet value: the (name, matcher-source) pairs it holds, keyed by
name.  Modelled from the spec: `TrackerSet` (Go `ActiveSeriesCustomTrackersConfig`),
"an unordered collection of Trackers keyed by name"; we keep the construction
order and compare by canonical form. -/
abbrev TrackerSet := List (Str × Str)

/-- The names of a TrackerSet's entries, in construction order. -/
def names (ts : TrackerSet) : List Str := ts.map Prod.fst

/-- Drop the longest suffix whose characters all satisfy `p`. -/
def dropWhileEnd (p : Char → Bool) : Str → Str
  | [] => []
  | c :: rest =>
    if dropWhileEnd p rest = [] ∧ p c = true then [] else c :: dropWhileEnd p rest

/-- Trim whitespace from both ends of a string, modelling Go
`strings.TrimSpace` on the whitespace characters the grammar uses. -/
def trimStr (s : Str) : Str := dropWhileEnd Char.isWhitespace (s.dropWhile Char.isWhitespace)

/-- Split a string on every `;`, modelling Go `strings.Split(s, ";")`:
the result is never empty, and splitting the empty string gives `[[]]`. -/
def splitSemi : Str → List Str
  | [] => [[]]
  | c :: rest =>
    if c = ';' then [] :: splitSemi rest
    else
      match splitSemi rest with
      | s :: ss => (c :: s) :: ss
      | [] => [[c]]

/-- Join segments with `;` separators: left inverse of `splitSemi` for
segments that contain no `;`. -/
def joinSemi : List Str → Str
  | [] => []
  | [p] => p
  | p :: rest => p ++ ';' :: joinSemi rest

/-- Split a segment at its first `:`, modelling Go
`strings.SplitN(pair, ":", 2)`: `none` when there is no colon. -/
def splitFirstColon : Str → Option (Str × Str)
  | [] => none
  | c :: rest =>
    if c = ':' then some ([], rest)
    else
      match splitFirstColon rest with
      | some (a, b) => some (c :: a, b)
      | none => none

/-- Ordering of tracker entries by name (names sorted as character lists). -/
abbrev nameLe (a b : Str × Str) : Prop := a.1 ≤ b.1

instance : DecidableRel nameLe := fun a b => inferInstanceAs (Decidable (a.1 ≤ b.1))

instance : IsTotal (Str × Str) nameLe := ⟨fun a b => le_total a.1 b.1⟩

instance : IsTrans (Str × Str) nameLe := ⟨fun _ _ _ h₁ h₂ => le_trans h₁ h₂⟩

/-- Sort a TrackerSet's entries by tracker name. -/
def sortEntries (ts : TrackerSet) : TrackerSet := ts.insertionSort nameLe

/-- Render one entry as `name:source`. -/
def renderEntry (e : Str × Str) : Str := e.1 ++ ':' :: e.2

/-- Canonical flag text of a TrackerSet.  Modelled from the spec: "Canonical
form = trackers sorted by name, each rendered as `name:source`, joined by
`;`" (the Go `String()` method). -/
def canonicalText (ts : TrackerSet) : Str := joinSemi ((sortEntries ts).map renderEntry)

/-- TrackerSet equality.  Modelled from the spec: "two TrackerSets are equal
iff canonical text is equal". -/
def tsEq (a b : TrackerSet) : Prop := canonicalText a = canonicalText b

instance (a b : TrackerSet) : Decidable (tsEq a b) :=
  inferInstanceAs (Decidable (canonicalText a = canonicalText b))

/-- Error taxonomy of the configuration core.  Modelled from the spec §7:
`MalformedEntry`, `DuplicateTracker` (with the same-call / cross-call
distinction), `InvalidMatcher`, `InvalidTracker`, `SchemaError`. -/
inductive TrackerError where
  | malformedEntry (pos : Nat) (segment : Str)
  | duplicateTracker (name : Str) (sameCall : Bool)
  | invalidMatcher (source : Str)
  | invalidTracker (name source : Str)
  | schemaError
deriving DecidableEq

instance {ε α : Type} [DecidableEq ε] [DecidableEq α] : DecidableEq (Except ε α) := fun a b =>
  match a, b with
  | .ok x, .ok y =>
    if h : x = y then isTrue (by subst h; rfl)
    else isFalse (fun he => h (Except.ok.inj he))
  | .ok _, .error _ => isFalse (fun he => Except.noConfusion he)
  | .error _, .ok _ => isFalse (fun he => Except.noConfusion he)
  | .error x, .error y =>
    if h : x = y then isTrue (by subst h; rfl)
    else isFalse (fun he => h (Except.error.inj he))

def msgMalformedPre : Str :=
  ("semicolon-separated values should be <name>:<matcher>, but one of the sides was empty in the value ").data

def msgDupPre : Str := ("matcher \"").data

def msgDupTwice : Str := ("\" for active series custom trackers is provided twice").data

def msgDupMore : Str := ("\" for active series custom trackers is provided more than once").data

def msgInvalidMatcherPre : Str := ("can not build active series matcher ").data

def msgInvalidTrackerPre : Str := ("invalid active series custom trackers entry ").data

def msgSchema : Str := ("active series custom trackers document has the wrong shape").data

/-- User-facing message of each error, with the wordings fixed by the test
file: a malformed entry echoes the untrimmed segment and its zero-based
position, and duplicate trackers are reported as "provided twice" (same
call) or "provided more than once" (across calls). -/
def TrackerError.message : TrackerError → Str
  | .malformedEntry pos seg => msgMalformedPre ++ (Nat.repr pos).data ++ ':' :: ' ' :: '"' :: seg ++ ['"']
  | .duplicateTracker n true => msgDupPre ++ n ++ msgDupTwice
  | .duplicateTracker n false => msgDupPre ++ n ++ msgDupMore
  | .invalidMatcher src => msgInvalidMatcherPre ++ src
  | .invalidTracker n _ => msgInvalidTrackerPre ++ n
  | .schemaError => msgSchema

/-- Accumulating flag-parser state.  Modelled from the spec §9: "a builder
that owns a growable name→tracker mapping during parsing"; `segCount` is the
number of segments parsed so far across all calls (§4.1). -/
structure FlagBuilder where
  entries : TrackerSet
  segCount : Nat
deriving DecidableEq

def freshBuilder : FlagBuilder := { entries := [], segCount := 0 }

/-- One pass over the segments of a single `Set` call.  Modelled from the
spec §4.1: for each segment, split at the first `:`, trim both sides, fail
`MalformedEntry` (echoing the untrimmed segment and its position across all
calls) when a side is empty, fail `InvalidMatcher` when the source does not
compile under the external compiler `mc`, and fail `DuplicateTracker` when
the name already exists — "more than once" when it came from a prior call
(`prior`), "twice" when it was added by this call (`news`). -/
def parseSegs (mc : Str → Bool) (prior : TrackerSet) :
    TrackerSet → Nat → List Str → Except TrackerError TrackerSet
  | news, _, [] => .ok news
  | news, pos, p :: rest =>
    match splitFirstColon p with
    | none => .error (.malformedEntry pos p)
    | some (n0, s0) =>
      let n := trimStr n0
      let src := trimStr s0
      if n = [] ∨ src = [] then .error (.malformedEntry pos p)
      else if mc src = false then .error (.invalidMatcher src)
      else if n ∈ names prior then .error (.duplicateTracker n false)
      else if n ∈ names news then .error (.duplicateTracker n true)
      else parseSegs mc prior (news ++ [(n, src)]) (pos + 1) rest

/-- One accumulating `Set` call on the flag builder.  Modelled from the spec
§4.1: an input that is empty (after trimming) is valid and yields an empty
TrackerSet — the mechanism for clearing a previously accumulated value —
otherwise the input is split on `;` and every segment is validated and
accumulated. -/
def setCall (mc : Str → Bool) (b : FlagBuilder) (s : Str) : Except TrackerError FlagBuilder :=
  if trimStr s = [] then .ok { entries := [], segCount := b.segCount }
  else
    match parseSegs mc b.entries [] b.segCount (splitSemi s) with
    | .error e => .error e
    | .ok news => .ok { entries := b.entries ++ news, segCount := b.segCount + (splitSemi s).length }

/-- Shared per-entry validation of the mapping path.  Modelled from the spec
§4.1: name and source must be non-empty after trimming (else `InvalidTracker`
naming the offending entry) and the source must compile (else
`InvalidMatcher`). -/
def validateEntry (mc : Str → Bool) (n0 s0 : Str) : Except TrackerError (Str × Str) :=
  let n := trimStr n0
  let s := trimStr s0
  if n = [] ∨ s = [] then .error (.invalidTracker n0 s0)
  else if mc s then .ok (n, s)
  else .error (.invalidMatcher s)

/-- Construction from a mapping (Go `newActiveSeriesCustomTrackersConfig`).
Modelled from the spec §4.1: validates every entry through the shared
routine; two trackers with the same (trimmed) name are a construction-time
error, never a last-write-wins overwrite (§3). -/
def newConfig (mc : Str → Bool) : List (Str × Str) → Except TrackerError TrackerSet
  | [] => .ok []
  | (n0, s0) :: rest =>
    match validateEntry mc n0 s0 with
    | .error e => .error e
    | .ok e =>
      match newConfig mc rest with
      | .error e2 => .error e2
      | .ok ts => if e.1 ∈ names ts then .error (.duplicateTracker e.1 true) else .ok (e :: ts)

/-- A structured configuration document node (the shape a YAML decoder
hands over): a scalar string or a mapping. -/
inductive Doc where
  | str (s : Str)
  | map (entries : List (Str × Doc))

/-- Decode a document mapping whose values must all be scalars; any nested
mapping is a type mismatch.  Modelled from the spec §4.1/§7: "a non-mapping
or type-mismatched document fails with `SchemaError`". -/
def decodeStrMap : List (Str × Doc) → Except TrackerError (List (Str × Str))
  | [] => .ok []
  | (n, Doc.str s) :: rest =>
    match decodeStrMap rest with
    | .error e => .error e
    | .ok m => .ok ((n, s) :: m)
  | (_, Doc.map _) :: _ => .error .schemaError

/-- Unmarshal a TrackerSet from a structured document.  Modelled from the
spec §4.1: "semantically identical validation to construct from mapping",
implemented as decode-to-mapping followed by the single shared construction
routine (§9: "keep validation as a single shared routine invoked from both
the flag path and the document path"). -/
def unmarshalTrackerSet (mc : Str → Bool) : Doc → Except TrackerError TrackerSet
  | Doc.str _ => .error .schemaError
  | Doc.map es =>
    match decodeStrMap es with
    | .error e => .error e
    | .ok m => newConfig mc m

/-- The per-tenant override value (Go `ActiveSeriesCustomTrackersOverrides`).
Modelled from the spec §3: one default TrackerSet plus a mapping from tenant
ID to tenant-specific TrackerSet. -/
structure OverrideResolver where
  Default : TrackerSet
  TenantSpecific : List (Str × TrackerSet)
deriving DecidableEq

def lookupTenant (k : Str) : List (Str × TrackerSet) → Option TrackerSet
  | [] => none
  | (k2, v) :: rest => if k2 = k then some v else lookupTenant k rest

/-- Resolution of the effective TrackerSet for a tenant (Go
`MatchersConfigForUser`).  Modelled from the spec §4.2: "returns
`TenantSpecific[tenantID]` if present, else `Default`.  No merging". -/
def MatchersConfigForUser (o : OverrideResolver) (userID : Str) : TrackerSet :=
  match lookupTenant userID o.TenantSpecific with
  | some t => t
  | none => o.Default

/-- The structured override document: optional `default` field and optional
`tenant_specific` field.  Modelled from the spec §4.2. -/
structure OverridesDoc where
  defaultDoc : Option Doc
  tenantSpecific : Option (List (Str × Doc))

/-- Unmarshal every tenant's TrackerSet document, failing with the offending
tenant's error. -/
def unmarshalTenants (mc : Str → Bool) : List (Str × Doc) → Except TrackerError (List (Str × TrackerSet))
  | [] => .ok []
  | (k, d) :: rest =>
    match unmarshalTrackerSet mc d with
    | .error e => .error e
    | .ok c =>
      match unmarshalTenants mc rest with
      | .error e => .error e
      | .ok r => .ok ((k, c) :: r)

/-- Unmarshal an OverrideResolver from a structured document.  Modelled from
the spec §4.2: `default` is optional (absent ⇒ empty TrackerSet),
`tenant_specific` is optional (absent ⇒ empty mapping). -/
def unmarshalOverrides (mc : Str → Bool) (d : OverridesDoc) : Except TrackerError OverrideResolver :=
  match (match d.defaultDoc with
         | none => Except.ok ([] : TrackerSet)
         | some dd => unmarshalTrackerSet mc dd) with
  | .error e => .error e
  | .ok dflt =>
    match (match d.tenantSpecific with
           | none => Except.ok ([] : List (Str × TrackerSet))
           | some tm => unmarshalTenants mc tm) with
    | .error e => .error e
    | .ok ts => .ok { Default := dflt, TenantSpecific := ts }

/-- The snapshot provider (Go `ActiveSeriesCustomTrackersOverridesProvider`):
it may itself be absent (`none`, a nil receiver) and may hold no supplier. -/
structure OverrideSnapshotProvider where
  getter : Option (Unit → Option OverrideResolver)

/-- `Get()` on a possibly-nil provider.  Modelled from the spec §4.3:
returns the current OverrideResolver, or "no overrides configured" (`none`)
when the provider is absent or holds no supplier; never fails. -/
def providerGet : Option OverrideSnapshotProvider → Option OverrideResolver
  | none => none
  | some p =>
    match p.getter with
    | none => none
    | some g => g ()

/-- Concrete stand-in for the external matcher compiler: accepts exactly the
brace-delimited matcher expressions.  Modelled from the spec §6: the matcher
expression language itself is an external collaborator
(`compile(source) -> CompiledMatcher | SyntaxError`); this instance accepts
the sources the test file treats as valid (such as `{foo="bar"}` and `{}`)
and rejects the ones it treats as invalid (such as `123`). -/
def braceCompiles (s : Str) : Bool :=
  match s with
  | [] => false
  | c :: rest => c = '{' && rest.getLast? = some '}'

/-- Does a flag segment have an empty (after trimming) name or source —
including the degenerate case of a segment with no colon at all. -/
def sideEmpty (p : Str) : Bool :=
  match splitFirstColon p with
  | none => true
  | some (a, b) => decide (trimStr a = []) || decide (trimStr b = [])

/-- A well-behaved entry: both sides non-empty and trim-invariant, the name
free of `:` and `;`, the source free of `;`. -/
def goodEntry (e : Str × Str) : Bool :=
  decide (e.1 ≠ []) && decide (e.2 ≠ []) &&
  decide (trimStr e.1 = e.1) && decide (trimStr e.2 = e.2) &&
  decide (':' ∉ e.1) && decide (';' ∉ e.1) && decide (';' ∉ e.2)

/-- A well-behaved TrackerSet under compiler `mc`: distinct names, every
entry well-behaved and every source accepted by `mc`. -/
def GoodConfig (mc : Str → Bool) (ts : TrackerSet) : Prop :=
  (names ts).Nodup ∧ ∀ e ∈ ts, goodEntry e = true ∧ mc e.2 = true

instance (mc : Str → Bool) (ts : TrackerSet) : Decidable (GoodConfig mc ts) := by
  unfold GoodConfig; exact inferInstance

/-! ## The `markblocks` tool (embedded from the source file of `uploadMarks`) -/

/-- Object-store contents: path ↦ data, later uploads shadowing earlier
ones. -/
abbrev Bucket := List (Str × Str)

def bucketGet (path : Str) : Bucket → Option Str
  | [] => none
  | (p, d) :: rest => if p = path then some d else bucketGet path rest

/-- `Exists` on the bucket. -/
def objExists (path : Str) (bkt : Bucket) : Bool := (bucketGet path bkt).isSome

/-- `Upload` on the bucket. -/
def upload (path data : Str) (bkt : Bucket) : Bucket := (path, data) :: bkt

def metaFilename (b : Str) : Str := b ++ ('/' :: ("meta.json").data)

def markFilenameFor (b fn : Str) : Str := b ++ '/' :: fn

/-- The body of the `uploadMarks` loop for one block `b`, from the source:
skip when `<b>/meta.json` does not exist, skip when the marker file already
exists, skip the upload when `dryRun` is set, otherwise upload the marker
produced by `mark b`. -/
def uploadMarkForBlock (mark : Str → Str) (filename : Str) (dryRun : Bool) (bkt : Bucket) (b : Str) : Bucket :=
  if !objExists (metaFilename b) bkt then bkt
  else if objExists (markFilenameFor b filename) bkt then bkt
  else if dryRun then bkt
  else upload (markFilenameFor b filename) (mark b) bkt

/-- `uploadMarks` from the source: process every block ID in order. -/
def uploadMarks (mark : Str → Str) (filename : Str) (dryRun : Bool) (ulids : List Str) (bkt : Bucket) : Bucket :=
  ulids.foldl (uploadMarkForBlock mark filename dryRun) bkt

/-! ## Concrete inputs used by the claims (taken from the test file) -/

def fooName : Str := ("foo").data

def bazName : Str := ("baz").data

def barName : Str := ("bar").data

def extraName : Str := ("extra").data

def aName : Str := ("a").data

def abName : Str := ("a:b").data

def fooBarSrc : Str := ("\x7bfoo=\"bar\"\x7d").data

def bazBarSrc : Str := ("\x7bbaz=\"bar\"\x7d").data

def fooQSrc : Str := ("\x7bfoo=\x27bar\x27\x7d").data

def bazQSrc : Str := ("\x7bbaz=\x27bar\x27\x7d").data

def extraQSrc : Str := ("\x7bextra=\x27extra\x27\x7d").data

def num123 : Str := ("123").data

def semiSrc : Str := ("\x7b;\x7d").data

def xSrc : Str := ("\x7bx\x7d").data

def braceOnly : Str := ("\x7b").data

def bColonX : Str := ("b:\x7bx\x7d").data

def wTs1 : TrackerSet := [(fooName, fooBarSrc)]

def cexMapSemi : List (Str × Str) := [(aName, semiSrc)]

def cexMapColon : List (Str × Str) := [(abName, xSrc)]

def flagText2 : Str := ("foo:\x7bfoo=\x27bar\x27\x7d;baz:\x7bbaz=\x27bar\x27\x7d").data

def map2 : List (Str × Str) := [(fooName, fooQSrc), (bazName, bazQSrc)]

def map2r : List (Str × Str) := [(bazName, bazQSrc), (fooName, fooQSrc)]

def doc2 : Doc := Doc.map [(bazName, Doc.str bazQSrc), (fooName, Doc.str fooQSrc)]

def docExtra : Doc := Doc.map [(bazName, Doc.str bazQSrc), (fooName, Doc.str fooQSrc), (extraName, Doc.str extraQSrc)]

def tsExtra : TrackerSet := [(bazName, bazQSrc), (fooName, fooQSrc), (extraName, extraQSrc)]

def builder2 : FlagBuilder := { entries := [(fooName, fooQSrc), (bazName, bazQSrc)], segCount := 2 }

def dupSameFlag : Str := ("foo:\x7ba=\"b\"\x7d;foo:\x7bc=\"d\"\x7d").data

def dupFlag1 : Str := ("foo:\x7ba=\"b\"\x7d").data

def dupFlag2 : Str := ("foo:\x7bc=\"d\"\x7d").data

def abSrc : Str := ("\x7ba=\"b\"\x7d").data

def cb3 : FlagBuilder := { entries := [(fooName, abSrc)], segCount := 1 }

def expectedDupTwiceMsg : Str := ("matcher \"foo\" for active series custom trackers is provided twice").data

def expectedDupMoreMsg : Str := ("matcher \"foo\" for active series custom trackers is provided more than once").data

def fooColonFlag : Str := ("foo:").data

def expectedMalformedMsg : Str := ("semicolon-separated values should be <name>:<matcher>, but one of the sides was empty in the value 0: \"foo:\"").data

def expectedMalformedMsg1 : Str := ("semicolon-separated values should be <name>:<matcher>, but one of the sides was empty in the value 1: \"foo:\"").data

def aFlag : Str := ("a:\x7bx\x7d").data

def cb4 : FlagBuilder := { entries := [(aName, xSrc)], segCount := 1 }

def teamALow : Str := ("team_a").data

def teamALowSrc : Str := ("\x7bteam=\"team_a\"\x7d").data

def oneStr : Str := ("1").data

def fiveStr : Str := ("5").data

def dTs : TrackerSet := [(fooName, fooBarSrc), (barName, bazBarSrc)]

def tTs : TrackerSet := [(teamALow, teamALowSrc)]

def r6 : OverrideResolver := { Default := dTs, TenantSpecific := [(oneStr, tTs)] }

def r0 : OverrideResolver := { Default := [], TenantSpecific := [] }

def gSample : Unit → Option OverrideResolver := fun _ => some r0

def c8BadDoc : Doc := Doc.map [(bazName, Doc.str num123), (fooName, Doc.str fooQSrc)]

def apolloName : Str := ("integrations/apolloserver").data

def apolloSrc : Str := ("\x7bjob=\x27integrations/apollo-server\x27\x7d").data

def caddyName : Str := ("integrations/caddy").data

def caddySrc : Str := ("\x7bjob=\x27integrations/caddy\x27\x7d").data

def teamAName : Str := ("team_A").data

def teamASrc : Str := ("\x7bgrafanacloud_team=\x27team_a\x27\x7d").data

def teamBName : Str := ("team_B").data

def teamBSrc : Str := ("\x7bgrafanacloud_team=\x27team_b\x27\x7d").data

def c9DefaultMap : List (Str × Str) := [(apolloName, apolloSrc), (caddyName, caddySrc)]

def c9TenantMap : List (Str × Str) := [(teamAName, teamASrc), (teamBName, teamBSrc)]

def c9Doc : OverridesDoc :=
  { defaultDoc := some (Doc.map [(apolloName, Doc.str apolloSrc), (caddyName, Doc.str caddySrc)]),
    tenantSpecific := some [(oneStr, Doc.map [(teamAName, Doc.str teamASrc), (teamBName, Doc.str teamBSrc)])] }

def c9Resolver : OverrideResolver := { Default := c9DefaultMap, TenantSpecific := [(oneStr, c9TenantMap)] }

def blockA : Str := ("block-a").data

def blockB : Str := ("block-b").data

def delMarkFile : Str := ("deletion-mark.json").data

def metaData : Str := ("meta").data

def oldMarkData : Str := ("old").data

def c10Mark : Str → Str := fun _ => ("newmark").data

def c10Bucket : Bucket :=
  [(metaFilename blockA, metaData), (markFilenameFor blockB delMarkFile, oldMarkData), (metaFilename blockB, metaData)]

/-! ## String infrastructure lemmas -/

theorem dropWhileEnd_eq_nil_iff {p : Char → Bool} {l : Str} :
    dropWhileEnd p l = [] ↔ ∀ c ∈ l, p c = true := by
  induction l with
  | nil => simp [dropWhileEnd]
  | cons c rest ih =>
    simp only [dropWhileEnd]
    split
    · next h => simp only [List.mem_cons, true_iff]
                intro x hx
                rcases hx with rfl | hx
                · exact h.2
                · exact ih.mp h.1 x hx
    · next h =>
      simp only [List.cons_ne_nil, false_iff]
      intro hall
      exact h ⟨ih.mpr (fun x hx => hall x (List.mem_cons_of_mem c hx)), hall c (List.mem_cons_self c rest)⟩

theorem mem_dropWhileEnd {p : Char → Bool} {l : Str} {c : Char} (h : c ∈ dropWhileEnd p l) : c ∈ l := by
  induction l with
  | nil => simp [dropWhileEnd] at h
  | cons d rest ih =>
    simp only [dropWhileEnd] at h
    split at h
    · exact absurd h (List.not_mem_nil c)
    · rcases List.mem_cons.mp h with rfl | h
      · exact List.mem_cons_self c rest
      · exact List.mem_cons_of_mem d (ih h)

theorem dropWhileEnd_idem {p : Char → Bool} {l : Str} :
    dropWhileEnd p (dropWhileEnd p l) = dropWhileEnd p l := by
  induction l with
  | nil => rfl
  | cons c rest ih =>
    by_cases h : dropWhileEnd p rest = [] ∧ p c = true
    · simp [dropWhileEnd, h]
    · have h1 : dropWhileEnd p (c :: rest) = c :: dropWhileEnd p rest := by
        simp only [dropWhileEnd]; exact if_neg h
      rw [h1]
      simp only [dropWhileEnd, ih]
      exact if_neg h

theorem dropWhile_idem {p : Char → Bool} {l : Str} :
    (l.dropWhile p).dropWhile p = l.dropWhile p := by
  induction l with
  | nil => rfl
  | cons c rest ih =>
    by_cases hp : p c = true
    · simp [List.dropWhile_cons, hp, ih]
    · simp [List.dropWhile_cons, hp]

theorem dropWhile_dropWhileEnd {p : Char → Bool} {l : Str} (hx : l.dropWhile p = l) :
    (dropWhileEnd p l).dropWhile p = dropWhileEnd p l := by
  cases l with
  | nil => rfl
  | cons c rest =>
    have hp : p c = false := by
      by_cases hp : p c = true
      · exfalso
        rw [List.dropWhile_cons, if_pos hp] at hx
        have := congrArg List.length hx
        simp only [List.length_cons] at this
        have hle := (List.dropWhile_sublist (l := rest) p).length_le
        omega
      · exact Bool.eq_false_iff.mpr hp
    simp only [dropWhileEnd]
    split
    · rfl
    · simp [List.dropWhile_cons, hp]

theorem trimStr_idem {s : Str} : trimStr (trimStr s) = trimStr s := by
  unfold trimStr
  rw [dropWhile_dropWhileEnd (dropWhile_idem), dropWhileEnd_idem]

theorem mem_trimStr {s : Str} {c : Char} (h : c ∈ trimStr s) : c ∈ s := by
  unfold trimStr at h
  exact (List.dropWhile_sublist Char.isWhitespace).mem (mem_dropWhileEnd h)

theorem trimStr_eq_nil_imp {s : Str} (h : trimStr s = []) : ∀ c ∈ s, c.isWhitespace = true := by
  intro c hc
  unfold trimStr at h
  have hdrop : ∀ x ∈ s.dropWhile Char.isWhitespace, x.isWhitespace = true :=
    dropWhileEnd_eq_nil_iff.mp h
  rcases List.mem_append.mp ((List.takeWhile_append_dropWhile (p := Char.isWhitespace) (l := s)) ▸ hc) with htake | hdr
  · exact List.mem_takeWhile_imp htake
  · exact hdrop c hdr

theorem trimStr_ne_nil_of_mem {s : Str} {c : Char} (hc : c ∈ s) (hw : c.isWhitespace = false) :
    trimStr s ≠ [] := by
  intro h
  rw [trimStr_eq_nil_imp h c hc] at hw
  exact Bool.noConfusion hw

/-! ## Split / join lemmas -/

theorem splitSemi_ne_nil {s : Str} : splitSemi s ≠ [] := by
  induction s with
  | nil => simp [splitSemi]
  | cons c rest ih =>
    simp only [splitSemi]
    split
    · exact List.cons_ne_nil _ _
    · rcases h : splitSemi rest with _ | ⟨a, ss⟩
      · exact absurd h ih
      · simp [h]

theorem mem_splitSemi {s : Str} {q : Str} (h : q ∈ splitSemi s) : ';' ∉ q := by
  induction s generalizing q with
  | nil =>
    simp only [splitSemi, List.mem_singleton] at h
    subst h; exact List.not_mem_nil ';'
  | cons c rest ih =>
    simp only [splitSemi] at h
    split at h
    · rcases List.mem_cons.mp h with rfl | h
      · exact List.not_mem_nil ';'
      · exact ih h
    · next hc =>
      rcases hsp : splitSemi rest with _ | ⟨a, ss⟩
      · exact absurd hsp splitSemi_ne_nil
      · rw [hsp] at h
        rcases List.mem_cons.mp h with rfl | h
        · intro hmem
          rcases List.mem_cons.mp hmem with h1 | h1
          · exact hc h1.symm
          · exact ih (hsp ▸ List.mem_cons_self a ss) h1
        · exact ih (hsp ▸ List.mem_cons_of_mem a h)

theorem splitSemi_no_semi {s : Str} (h : ';' ∉ s) : splitSemi s = [s] := by
  induction s with
  | nil => rfl
  | cons c rest ih =>
    have hc : ¬(c = ';') := fun hc => h (hc ▸ List.mem_cons_self c rest)
    have hr : ';' ∉ rest := fun hr => h (List.mem_cons_of_mem c hr)
    simp [splitSemi, hc, ih hr]

theorem splitSemi_append {p t : Str} (h : ';' ∉ p) : splitSemi (p ++ ';' :: t) = p :: splitSemi t := by
  induction p with
  | nil => simp [splitSemi]
  | cons c p' ih =>
    have hc : ¬(c = ';') := fun hc => h (hc ▸ List.mem_cons_self c p')
    have hp' : ';' ∉ p' := fun hr => h (List.mem_cons_of_mem c hr)
    have harr : p'.append (';' :: t) = p' ++ ';' :: t := rfl
    simp only [List.cons_append, splitSemi, if_neg hc, harr, ih hp']

theorem splitSemi_joinSemi {parts : List Str} (hne : parts ≠ [])
    (h : ∀ p ∈ parts, ';' ∉ p) : splitSemi (joinSemi parts) = parts := by
  induction parts with
  | nil => exact absurd rfl hne
  | cons p rest ih =>
    cases rest with
    | nil => exact splitSemi_no_semi (h p (List.mem_singleton.mpr rfl))
    | cons q rest' =>
      have hjoin : joinSemi (p :: q :: rest') = p ++ ';' :: joinSemi (q :: rest') := rfl
      rw [hjoin, splitSemi_append (h p (List.mem_cons_self p _)),
        ih (List.cons_ne_nil q rest') (fun x hx => h x (List.mem_cons_of_mem p hx))]

theorem splitFirstColon_append {n src : Str} (h : ':' ∉ n) :
    splitFirstColon (n ++ ':' :: src) = some (n, src) := by
  induction n with
  | nil => simp [splitFirstColon]
  | cons c n' ih =>
    have hc : ¬(c = ':') := fun hc => h (hc ▸ List.mem_cons_self c n')
    have hn' : ':' ∉ n' := fun hr => h (List.mem_cons_of_mem c hr)
    have harr : n'.append (':' :: src) = n' ++ ':' :: src := rfl
    simp only [List.cons_append, splitFirstColon, if_neg hc, harr, ih hn']

theorem splitFirstColon_sound {p a b : Str} (h : splitFirstColon p = some (a, b)) :
    p = a ++ ':' :: b ∧ ':' ∉ a := by
  induction p generalizing a b with
  | nil => simp [splitFirstColon] at h
  | cons c rest ih =>
    simp only [splitFirstColon] at h
    split at h
    · next hc =>
      rcases Option.some.inj h with h'
      have ha : a = [] := (congrArg Prod.fst h').symm
      have hb : b = rest := (congrArg Prod.snd h').symm
      subst ha; subst hb; subst hc
      exact ⟨rfl, List.not_mem_nil ':'⟩
    · next hc =>
      rcases hsp : splitFirstColon rest with _ | ⟨a', b'⟩
      · rw [hsp] at h; exact absurd h (by simp)
      · rw [hsp] at h
        rcases Option.some.inj h with h'
        have ha : a = c :: a' := (congrArg Prod.fst h').symm
        have hb : b = b' := (congrArg Prod.snd h').symm
        subst ha; subst hb
        obtain ⟨hrest, hnotin⟩ := ih hsp
        constructor
        · rw [List.cons_append, ← hrest]
        · intro hmem
          rcases List.mem_cons.mp hmem with h1 | h1
          · exact hc h1.symm
          · exact hnotin h1

/-! ## Sorting and canonical-form lemmas -/

theorem sortEntries_perm (ts : TrackerSet) : (sortEntries ts).Perm ts :=
  List.perm_insertionSort nameLe ts

theorem sortEntries_sorted (ts : TrackerSet) : List.Sorted nameLe (sortEntries ts) :=
  List.sorted_insertionSort nameLe ts

theorem names_perm {l₁ l₂ : TrackerSet} (h : l₁.Perm l₂) : (names l₁).Perm (names l₂) :=
  h.map Prod.fst

theorem sorted_nodup_perm_eq : ∀ {l₁ l₂ : TrackerSet}, l₁.Perm l₂ →
    List.Sorted nameLe l₁ → List.Sorted nameLe l₂ → (names l₁).Nodup → l₁ = l₂ := by
  intro l₁
  induction l₁ with
  | nil =>
    intro l₂ hp _ _ _
    exact hp.nil_eq
  | cons a t₁ ih =>
    intro l₂ hp hs₁ hs₂ hn₁
    cases l₂ with
    | nil => exact absurd hp.symm.nil_eq (List.cons_ne_nil a t₁).symm
    | cons b t₂ =>
      have ha2 : a ∈ b :: t₂ := hp.mem_iff.mp (List.mem_cons_self a t₁)
      have hb1 : b ∈ a :: t₁ := hp.symm.mem_iff.mp (List.mem_cons_self b t₂)
      have hab : a.1 ≤ b.1 := by
        rcases List.mem_cons.mp hb1 with h | hb
        · rw [h]
        · exact (List.sorted_cons.mp hs₁).1 b hb
      have hba : b.1 ≤ a.1 := by
        rcases List.mem_cons.mp ha2 with h | ha
        · rw [h]
        · exact (List.sorted_cons.mp hs₂).1 a ha
      have hnameseq : a.1 = b.1 := le_antisymm hab hba
      have hae : a = b := by
        rcases List.mem_cons.mp ha2 with h | ha
        · exact h
        · exfalso
          have hn₂ : (b.1 :: names t₂).Nodup := (names_perm hp).nodup_iff.mp hn₁
          exact (List.nodup_cons.mp hn₂).1 (hnameseq ▸ List.mem_map_of_mem Prod.fst ha)
      subst hae
      have htail : t₁.Perm t₂ := hp.cons_inv
      have hnt : (names t₁).Nodup := (List.nodup_cons.mp (show (a.1 :: names t₁).Nodup from hn₁)).2
      rw [ih htail (List.sorted_cons.mp hs₁).2 (List.sorted_cons.mp hs₂).2 hnt]

theorem canonical_perm {l₁ l₂ : TrackerSet} (hp : l₁.Perm l₂) (hn : (names l₁).Nodup) :
    canonicalText l₁ = canonicalText l₂ := by
  have hsort : sortEntries l₁ = sortEntries l₂ :=
    sorted_nodup_perm_eq ((sortEntries_perm l₁).trans (hp.trans (sortEntries_perm l₂).symm))
      (sortEntries_sorted l₁) (sortEntries_sorted l₂)
      ((names_perm (sortEntries_perm l₁)).nodup_iff.mpr hn)
  rw [canonicalText, canonicalText, hsort]

theorem sortEntries_eq_self {ts : TrackerSet} (hs : List.Sorted nameLe ts)
    (hn : (names ts).Nodup) : sortEntries ts = ts :=
  sorted_nodup_perm_eq (sortEntries_perm ts) (sortEntries_sorted ts) hs
    ((names_perm (sortEntries_perm ts)).nodup_iff.mpr hn)

/-! ## Flag-parsing lemmas -/

theorem goodEntry_iff {e : Str × Str} : goodEntry e = true ↔
    e.1 ≠ [] ∧ e.2 ≠ [] ∧ trimStr e.1 = e.1 ∧ trimStr e.2 = e.2 ∧
      ':' ∉ e.1 ∧ ';' ∉ e.1 ∧ ';' ∉ e.2 := by
  simp [goodEntry, and_assoc]

theorem not_semi_renderEntry {e : Str × Str} (h1 : ';' ∉ e.1) (h2 : ';' ∉ e.2) :
    ';' ∉ renderEntry e := by
  intro hmem
  rcases List.mem_append.mp hmem with h | h
  · exact h1 h
  · rcases List.mem_cons.mp h with h' | h'
    · exact absurd h' (by decide)
    · exact h2 h'

theorem colon_mem_renderEntry (e : Str × Str) : ':' ∈ renderEntry e :=
  List.mem_append_right e.1 (List.mem_cons_self ':' e.2)

theorem mem_joinSemi_head {c : Char} {p : Str} (rest : List Str) (h : c ∈ p) :
    c ∈ joinSemi (p :: rest) := by
  cases rest with
  | nil => exact h
  | cons q rest' => exact List.mem_append_left _ h

theorem parseSegs_render (mc : Str → Bool) :
    ∀ (todo done : TrackerSet) (pos : Nat),
      (∀ e ∈ done ++ todo, goodEntry e = true ∧ mc e.2 = true) →
      (names (done ++ todo)).Nodup →
      parseSegs mc [] done pos (todo.map renderEntry) = .ok (done ++ todo) := by
  intro todo
  induction todo with
  | nil =>
    intro done pos _ _
    simp [parseSegs]
  | cons e todo' ih =>
    intro done pos hgood hnodup
    obtain ⟨hge, hmc⟩ := hgood e (List.mem_append_right done (List.mem_cons_self e todo'))
    obtain ⟨hne1, hne2, ht1, ht2, hc1, _, _⟩ := goodEntry_iff.mp hge
    have hsplit : splitFirstColon (renderEntry e) = some (e.1, e.2) := splitFirstColon_append hc1
    have hnames : names (done ++ e :: todo') = names done ++ e.1 :: names todo' := by
      simp [names]
    have hnotdone : e.1 ∉ names done := by
      intro hmem
      rw [hnames] at hnodup
      rcases List.nodup_append.mp hnodup with ⟨_, _, hdisj⟩
      exact hdisj hmem (List.mem_cons_self e.1 (names todo'))
    simp only [List.map_cons, parseSegs, hsplit, ht1, ht2]
    rw [if_neg (by
      intro hor
      rcases hor with h | h
      · exact hne1 h
      · exact hne2 h)]
    rw [if_neg (by rw [hmc]; exact fun h => Bool.noConfusion h)]
    rw [if_neg (show e.1 ∉ names ([] : TrackerSet) from List.not_mem_nil e.1)]
    rw [if_neg hnotdone]
    have hassoc : (done ++ [(e.1, e.2)]) ++ todo' = done ++ e :: todo' := by
      rw [List.append_assoc]; rfl
    have := ih (done ++ [(e.1, e.2)]) (pos + 1)
      (by rw [hassoc]; exact hgood) (by rw [hassoc]; exact hnodup)
    rw [hassoc] at this
    exact this

theorem roundtrip_good (mc : Str → Bool) (ts : TrackerSet) (h : GoodConfig mc ts) :
    ∃ b', setCall mc freshBuilder (canonicalText ts) = .ok b' ∧ tsEq b'.entries ts := by
  obtain ⟨hnodup, hentries⟩ := h
  cases hts : ts with
  | nil => exact ⟨{ entries := [], segCount := 0 }, rfl, rfl⟩
  | cons e0 ts' =>
    rw [← hts]
    have htsne : ts ≠ [] := by rw [hts]; exact List.cons_ne_nil e0 ts'
    have hsortne : sortEntries ts ≠ [] := by
      intro hnil
      have := (sortEntries_perm ts).length_eq
      rw [hnil, hts] at this
      simp at this
    have hgood' : ∀ e ∈ sortEntries ts, goodEntry e = true ∧ mc e.2 = true := by
      intro e he
      exact hentries e ((sortEntries_perm ts).mem_iff.mp he)
    have hnodup' : (names (sortEntries ts)).Nodup :=
      (names_perm (sortEntries_perm ts)).nodup_iff.mpr hnodup
    -- the rendered segments
    rcases hparts : (sortEntries ts).map renderEntry with _ | ⟨p0, parts'⟩
    · exact absurd (List.map_eq_nil_iff.mp hparts) hsortne
    · have hpartsne : (sortEntries ts).map renderEntry ≠ [] := by rw [hparts]; exact List.cons_ne_nil p0 parts'
      have hnosemi : ∀ p ∈ (sortEntries ts).map renderEntry, ';' ∉ p := by
        intro p hp
        rcases List.mem_map.mp hp with ⟨e, he, rfl⟩
        obtain ⟨hge, _⟩ := hgood' e he
        obtain ⟨_, _, _, _, _, hs1, hs2⟩ := goodEntry_iff.mp hge
        exact not_semi_renderEntry hs1 hs2
      have hcolon : ':' ∈ canonicalText ts := by
        unfold canonicalText
        rw [hparts]
        rcases List.mem_map.mp (hparts ▸ List.mem_cons_self p0 parts') with ⟨e, _, rfl⟩
        exact mem_joinSemi_head parts' (colon_mem_renderEntry e)
      have htrim : trimStr (canonicalText ts) ≠ [] :=
        trimStr_ne_nil_of_mem hcolon (by decide)
      have hsplitsemi : splitSemi (canonicalText ts) = (sortEntries ts).map renderEntry :=
        splitSemi_joinSemi hpartsne hnosemi
      have hparse : parseSegs mc [] [] 0 ((sortEntries ts).map renderEntry) = .ok ([] ++ sortEntries ts) :=
        parseSegs_render mc (sortEntries ts) [] 0 (by simpa using hgood') (by simpa using hnodup')
      refine ⟨{ entries := [] ++ sortEntries ts,
                segCount := 0 + ((sortEntries ts).map renderEntry).length }, ?_, ?_⟩
      · unfold setCall
        rw [if_neg htrim]
        have hfresh : freshBuilder.entries = [] := rfl
        have hfreshc : freshBuilder.segCount = 0 := rfl
        rw [hfresh, hfreshc, hsplitsemi, hparse]
        rfl
      · simp only [List.nil_append]
        exact canonical_perm (sortEntries_perm ts) hnodup'

theorem goodConfig_nil (mc : Str → Bool) : GoodConfig mc [] :=
  ⟨List.nodup_nil, by intro e he; exact absurd he (List.not_mem_nil e)⟩

theorem parseSegs_good (mc : Str → Bool) (prior : TrackerSet) :
    ∀ (segs : List Str) (news : TrackerSet) (pos : Nat) (res : TrackerSet),
      parseSegs mc prior news pos segs = .ok res →
      (∀ p ∈ segs, ';' ∉ p) →
      GoodConfig mc (prior ++ news) →
      GoodConfig mc (prior ++ res) := by
  intro segs
  induction segs with
  | nil =>
    intro news pos res h _ hg
    simp only [parseSegs] at h
    exact (Except.ok.inj h) ▸ hg
  | cons p rest ih =>
    intro news pos res h hsemi hg
    rcases hsp : splitFirstColon p with _ | ⟨n0, s0⟩
    · simp only [parseSegs, hsp] at h
      exact Except.noConfusion h
    · simp only [parseSegs, hsp] at h
      split_ifs at h with h1 h2 h3 h4
      have hp_semi : ';' ∉ p := hsemi p (List.mem_cons_self p rest)
      obtain ⟨hpeq, hcolon0⟩ := splitFirstColon_sound hsp
      have hn0semi : ';' ∉ n0 := fun hm => hp_semi (hpeq ▸ List.mem_append_left _ hm)
      have hs0semi : ';' ∉ s0 := fun hm =>
        hp_semi (hpeq ▸ List.mem_append_right _ (List.mem_cons_of_mem ':' hm))
      have hmc : mc (trimStr s0) = true := by
        rcases Bool.eq_false_or_eq_true (mc (trimStr s0)) with hx | hx
        · exact hx
        · exact absurd hx h2
      have hgood_new : goodEntry (trimStr n0, trimStr s0) = true := by
        refine goodEntry_iff.mpr ⟨?_, ?_, trimStr_idem, trimStr_idem, ?_, ?_, ?_⟩
        · intro hx; exact h1 (Or.inl hx)
        · intro hx; exact h1 (Or.inr hx)
        · intro hm; exact hcolon0 (mem_trimStr hm)
        · intro hm; exact hn0semi (mem_trimStr hm)
        · intro hm; exact hs0semi (mem_trimStr hm)
      have hnotin : trimStr n0 ∉ names (prior ++ news) := by
        intro hm
        rw [show names (prior ++ news) = names prior ++ names news by simp [names]] at hm
        rcases List.mem_append.mp hm with hm | hm
        · exact h3 hm
        · exact h4 hm
      have hgext : GoodConfig mc ((prior ++ news) ++ [(trimStr n0, trimStr s0)]) := by
        obtain ⟨hnd, hall⟩ := hg
        refine ⟨?_, ?_⟩
        · rw [show names ((prior ++ news) ++ [(trimStr n0, trimStr s0)]) =
              names (prior ++ news) ++ [trimStr n0] by simp [names]]
          exact List.nodup_append.mpr ⟨hnd, List.nodup_singleton _,
            fun x hx hx1 => hnotin ((List.mem_singleton.mp hx1) ▸ hx)⟩
        · intro e he
          rcases List.mem_append.mp he with he | he
          · exact hall e he
          · rw [List.mem_singleton.mp he]
            exact ⟨hgood_new, hmc⟩
      have hgext2 : GoodConfig mc (prior ++ (news ++ [(trimStr n0, trimStr s0)])) := by
        rw [← List.append_assoc]
        exact hgext
      exact ih (news ++ [(trimStr n0, trimStr s0)]) (pos + 1) res h
        (fun q hq => hsemi q (List.mem_cons_of_mem p hq)) hgext2

theorem setCall_good {mc : Str → Bool} {b : FlagBuilder} {s : Str} {b2 : FlagBuilder}
    (h : setCall mc b s = .ok b2) (hg : GoodConfig mc b.entries) :
    GoodConfig mc b2.entries := by
  unfold setCall at h
  split_ifs at h with htrim
  · have hb2 : b2 = { entries := [], segCount := b.segCount } := (Except.ok.inj h).symm
    rw [hb2]
    exact goodConfig_nil mc
  · rcases hp : parseSegs mc b.entries [] b.segCount (splitSemi s) with e | news
    · rw [hp] at h
      exact Except.noConfusion h
    · rw [hp] at h
      have hb2 : b2 = { entries := b.entries ++ news, segCount := b.segCount + (splitSemi s).length } :=
        (Except.ok.inj h).symm
      rw [hb2]
      exact parseSegs_good mc b.entries (splitSemi s) [] b.segCount news hp
        (fun p hp2 => mem_splitSemi hp2) (by rw [List.append_nil]; exact hg)

/-! ## Mapping-construction and unmarshalling lemmas -/

theorem validateEntry_ok {mc : Str → Bool} {n0 s0 : Str} {v : Str × Str}
    (h : validateEntry mc n0 s0 = .ok v) :
    v = (trimStr n0, trimStr s0) ∧ trimStr n0 ≠ [] ∧ trimStr s0 ≠ [] ∧ mc (trimStr s0) = true := by
  simp only [validateEntry] at h
  split_ifs at h with h1 h2
  refine ⟨(Except.ok.inj h).symm, ?_, ?_, h2⟩
  · exact fun hx => h1 (Or.inl hx)
  · exact fun hx => h1 (Or.inr hx)

theorem newConfig_eq_map (mc : Str → Bool) :
    ∀ (m : List (Str × Str)) (ts : TrackerSet), newConfig mc m = .ok ts →
      ts = m.map (fun e => (trimStr e.1, trimStr e.2)) := by
  intro m
  induction m with
  | nil =>
    intro ts h
    simp only [newConfig] at h
    exact (Except.ok.inj h).symm
  | cons e m' ih =>
    intro ts h
    rcases e with ⟨n0, s0⟩
    rcases hv : validateEntry mc n0 s0 with err | v
    · simp only [newConfig, hv] at h
      exact Except.noConfusion h
    · rcases hr : newConfig mc m' with err2 | ts'
      · simp only [newConfig, hv, hr] at h
        exact Except.noConfusion h
      · simp only [newConfig, hv, hr] at h
        split_ifs at h with hdup
        have hts : ts = v :: ts' := (Except.ok.inj h).symm
        obtain ⟨hveq, _, _, _⟩ := validateEntry_ok hv
        rw [hts, hveq, ih ts' hr]
        rfl

theorem newConfig_nodup (mc : Str → Bool) :
    ∀ (m : List (Str × Str)) (ts : TrackerSet), newConfig mc m = .ok ts → (names ts).Nodup := by
  intro m
  induction m with
  | nil =>
    intro ts h
    simp only [newConfig] at h
    rw [← Except.ok.inj h]
    exact List.nodup_nil
  | cons e m' ih =>
    intro ts h
    rcases e with ⟨n0, s0⟩
    rcases hv : validateEntry mc n0 s0 with err | v
    · simp only [newConfig, hv] at h
      exact Except.noConfusion h
    · rcases hr : newConfig mc m' with err2 | ts'
      · simp only [newConfig, hv, hr] at h
        exact Except.noConfusion h
      · simp only [newConfig, hv, hr] at h
        split_ifs at h with hdup
        rw [← Except.ok.inj h]
        exact List.nodup_cons.mpr ⟨hdup, ih ts' hr⟩

theorem newConfig_good (mc : Str → Bool) :
    ∀ (m : List (Str × Str)) (ts : TrackerSet), newConfig mc m = .ok ts →
      (∀ e ∈ m, ':' ∉ trimStr e.1 ∧ ';' ∉ trimStr e.1 ∧ ';' ∉ trimStr e.2) →
      GoodConfig mc ts := by
  intro m
  induction m with
  | nil =>
    intro ts h _
    simp only [newConfig] at h
    rw [← Except.ok.inj h]
    exact goodConfig_nil mc
  | cons e m' ih =>
    intro ts h hcond
    rcases e with ⟨n0, s0⟩
    rcases hv : validateEntry mc n0 s0 with err | v
    · simp only [newConfig, hv] at h
      exact Except.noConfusion h
    · rcases hr : newConfig mc m' with err2 | ts'
      · simp only [newConfig, hv, hr] at h
        exact Except.noConfusion h
      · simp only [newConfig, hv, hr] at h
        split_ifs at h with hdup
        obtain ⟨hveq, hn, hs, hmc⟩ := validateEntry_ok hv
        obtain ⟨hcol, hsem1, hsem2⟩ := hcond (n0, s0) (List.mem_cons_self _ m')
        obtain ⟨hnodup', hall'⟩ := ih ts' hr (fun x hx => hcond x (List.mem_cons_of_mem _ hx))
        rw [← Except.ok.inj h]
        constructor
        · rw [show names (v :: ts') = v.1 :: names ts' from rfl]
          exact List.nodup_cons.mpr ⟨hveq ▸ hdup, hnodup'⟩
        · intro x hx
          rcases List.mem_cons.mp hx with rfl | hx
          · constructor
            · rw [hveq]
              exact goodEntry_iff.mpr ⟨hn, hs, trimStr_idem, trimStr_idem, hcol, hsem1, hsem2⟩
            · rw [hveq]
              exact hmc
          · exact hall' x hx

theorem decodeStrMap_wrap :
    ∀ (m : List (Str × Str)), decodeStrMap (m.map (fun e => (e.1, Doc.str e.2))) = .ok m := by
  intro m
  induction m with
  | nil => rfl
  | cons e m' ih =>
    rcases e with ⟨n, s⟩
    simp only [List.map_cons, decodeStrMap, ih]

theorem unmarshalTrackerSet_wrap (mc : Str → Bool) (m : List (Str × Str)) :
    unmarshalTrackerSet mc (Doc.map (m.map (fun e => (e.1, Doc.str e.2)))) = newConfig mc m := by
  simp only [unmarshalTrackerSet, decodeStrMap_wrap]

theorem unmarshalTenants_sound (mc : Str → Bool) :
    ∀ (tm : List (Str × Doc)) (l : List (Str × TrackerSet)),
      unmarshalTenants mc tm = .ok l →
      l.map Prod.fst = tm.map Prod.fst ∧
      ∀ k d, (k, d) ∈ tm → ∃ c, unmarshalTrackerSet mc d = .ok c ∧ (k, c) ∈ l := by
  intro tm
  induction tm with
  | nil =>
    intro l h
    simp only [unmarshalTenants] at h
    rw [← Except.ok.inj h]
    exact ⟨rfl, fun k d hd => absurd hd (List.not_mem_nil _)⟩
  | cons e tm' ih =>
    intro l h
    rcases e with ⟨k0, d0⟩
    rcases hu : unmarshalTrackerSet mc d0 with err | c0
    · simp only [unmarshalTenants, hu] at h
      exact Except.noConfusion h
    · rcases hr : unmarshalTenants mc tm' with err2 | r
      · simp only [unmarshalTenants, hu, hr] at h
        exact Except.noConfusion h
      · simp only [unmarshalTenants, hu, hr] at h
        have hl : l = (k0, c0) :: r := (Except.ok.inj h).symm
        obtain ⟨hmap, hmem⟩ := ih r hr
        subst hl
        constructor
        · simp only [List.map_cons, hmap]
        · intro k d hd
          rcases List.mem_cons.mp hd with heq | hd
          · obtain ⟨hk, hdq⟩ := Prod.mk.inj heq
            subst hk; subst hdq
            exact ⟨c0, hu, List.mem_cons_self _ r⟩
          · obtain ⟨c, hc, hcl⟩ := hmem k d hd
            exact ⟨c, hc, List.mem_cons_of_mem _ hcl⟩

theorem unmarshalTenants_lookup (mc : Str → Bool) :
    ∀ (tm : List (Str × Doc)) (l : List (Str × TrackerSet)),
      unmarshalTenants mc tm = .ok l →
      (tm.map Prod.fst).Nodup →
      ∀ k d, (k, d) ∈ tm → ∃ c, unmarshalTrackerSet mc d = .ok c ∧ lookupTenant k l = some c := by
  intro tm
  induction tm with
  | nil =>
    intro l h _ k d hd
    exact absurd hd (List.not_mem_nil _)
  | cons e tm' ih =>
    intro l h hnd k d hd
    rcases e with ⟨k0, d0⟩
    rcases hu : unmarshalTrackerSet mc d0 with err | c0
    · simp only [unmarshalTenants, hu] at h
      exact Except.noConfusion h
    · rcases hr : unmarshalTenants mc tm' with err2 | r
      · simp only [unmarshalTenants, hu, hr] at h
        exact Except.noConfusion h
      · simp only [unmarshalTenants, hu, hr] at h
        have hl : l = (k0, c0) :: r := (Except.ok.inj h).symm
        subst hl
        have hk0 : k0 ∉ tm'.map Prod.fst :=
          (List.nodup_cons.mp (show (k0 :: tm'.map Prod.fst).Nodup from hnd)).1
        rcases List.mem_cons.mp hd with heq | hd
        · obtain ⟨hk, hdq⟩ := Prod.mk.inj heq
          subst hk; subst hdq
          refine ⟨c0, hu, ?_⟩
          simp [lookupTenant]
        · have hkne : k0 ≠ k := by
            intro hk
            subst hk
            exact hk0 (List.mem_map_of_mem Prod.fst hd)
          obtain ⟨c, hc, hcl⟩ := ih r hr
            (List.nodup_cons.mp (show (k0 :: tm'.map Prod.fst).Nodup from hnd)).2 k d hd
          refine ⟨c, hc, ?_⟩
          simp only [lookupTenant, if_neg hkne]
          exact hcl

/-! ## Error-soundness lemmas for the flag parser -/

theorem parseSegs_dup (mc : Str → Bool) (prior : TrackerSet) :
    ∀ (segs : List Str) (news : TrackerSet) (pos : Nat) (n : Str) (sc : Bool),
      parseSegs mc prior news pos segs = .error (.duplicateTracker n sc) →
      (∀ x ∈ names news, x ∉ names prior) →
      (sc = false ↔ n ∈ names prior) := by
  intro segs
  induction segs with
  | nil =>
    intro news pos n sc h _
    exact Except.noConfusion h
  | cons p rest ih =>
    intro news pos n sc h hdisj
    rcases hsp : splitFirstColon p with _ | ⟨n0, s0⟩
    · simp only [parseSegs, hsp] at h
      exact TrackerError.noConfusion (Except.error.inj h)
    · simp only [parseSegs, hsp] at h
      split_ifs at h with h1 h2 h3 h4
      · exact TrackerError.noConfusion (Except.error.inj h)
      · exact TrackerError.noConfusion (Except.error.inj h)
      · obtain ⟨hn, hsc⟩ := TrackerError.duplicateTracker.inj (Except.error.inj h)
        subst hn
        constructor
        · intro _; exact h3
        · intro _; exact hsc.symm
      · obtain ⟨hn, hsc⟩ := TrackerError.duplicateTracker.inj (Except.error.inj h)
        subst hn
        rw [← hsc]
        constructor
        · intro hx; exact Bool.noConfusion hx
        · intro hx; exact absurd hx h3
      · refine ih (news ++ [(trimStr n0, trimStr s0)]) (pos + 1) n sc h ?_
        intro x hx
        rw [show names (news ++ [(trimStr n0, trimStr s0)]) = names news ++ [trimStr n0] by
          simp [names]] at hx
        rcases List.mem_append.mp hx with hx | hx
        · exact hdisj x hx
        · rw [List.mem_singleton.mp hx]
          exact h3

theorem setCall_dup {mc : Str → Bool} {b : FlagBuilder} {s : Str} {n : Str} {sc : Bool}
    (h : setCall mc b s = .error (.duplicateTracker n sc)) :
    (sc = false ↔ n ∈ names b.entries) := by
  unfold setCall at h
  split_ifs at h with htrim
  rcases hp : parseSegs mc b.entries [] b.segCount (splitSemi s) with e | news
  · rw [hp] at h
    have he : e = .duplicateTracker n sc := Except.error.inj h
    subst he
    exact parseSegs_dup mc b.entries (splitSemi s) [] b.segCount n sc hp
      (fun x hx => absurd hx (List.not_mem_nil x))
  · rw [hp] at h
    exact Except.noConfusion h

theorem parseSegs_malformed (mc : Str → Bool) (prior : TrackerSet) :
    ∀ (segs : List Str) (news : TrackerSet) (pos : Nat) (i : Nat) (seg : Str),
      parseSegs mc prior news pos segs = .error (.malformedEntry i seg) →
      pos ≤ i ∧ segs[i - pos]? = some seg ∧ sideEmpty seg = true := by
  intro segs
  induction segs with
  | nil =>
    intro news pos i seg h
    exact Except.noConfusion h
  | cons p rest ih =>
    intro news pos i seg h
    rcases hsp : splitFirstColon p with _ | ⟨n0, s0⟩
    · simp only [parseSegs, hsp] at h
      obtain ⟨hi, hseg⟩ := TrackerError.malformedEntry.inj (Except.error.inj h)
      refine ⟨by omega, ?_, ?_⟩
      · have h0 : i - pos = 0 := by omega
        rw [h0]
        simp [hseg]
      · rw [← hseg]
        simp [sideEmpty, hsp]
    · simp only [parseSegs, hsp] at h
      split_ifs at h with h1 h2 h3 h4
      · obtain ⟨hi, hseg⟩ := TrackerError.malformedEntry.inj (Except.error.inj h)
        refine ⟨by omega, ?_, ?_⟩
        · have h0 : i - pos = 0 := by omega
          rw [h0]
          simp [hseg]
        · rw [← hseg]
          rcases h1 with hx | hx
          · simp [sideEmpty, hsp, hx]
          · simp [sideEmpty, hsp, hx]
      · exact TrackerError.noConfusion (Except.error.inj h)
      · exact TrackerError.noConfusion (Except.error.inj h)
      · exact TrackerError.noConfusion (Except.error.inj h)
      · obtain ⟨hle, hget, hside⟩ := ih (news ++ [(trimStr n0, trimStr s0)]) (pos + 1) i seg h
        refine ⟨by omega, ?_, hside⟩
        have hidx : i - pos = (i - (pos + 1)) + 1 := by omega
        rw [hidx]
        simpa using hget

theorem parseSegs_ok_no_sideEmpty (mc : Str → Bool) (prior : TrackerSet) :
    ∀ (segs : List Str) (news : TrackerSet) (pos : Nat) (res : TrackerSet),
      parseSegs mc prior news pos segs = .ok res →
      ∀ p ∈ segs, sideEmpty p = false := by
  intro segs
  induction segs with
  | nil =>
    intro news pos res _ p hp
    exact absurd hp (List.not_mem_nil p)
  | cons p rest ih =>
    intro news pos res h q hq
    rcases hsp : splitFirstColon p with _ | ⟨n0, s0⟩
    · simp only [parseSegs, hsp] at h
      exact Except.noConfusion h
    · simp only [parseSegs, hsp] at h
      split_ifs at h with h1 h2 h3 h4
      rcases List.mem_cons.mp hq with rfl | hq
      · have hn : trimStr n0 ≠ [] := fun hx => h1 (Or.inl hx)
        have hs : trimStr s0 ≠ [] := fun hx => h1 (Or.inr hx)
        simp [sideEmpty, hsp, hn, hs]
      · exact ih (news ++ [(trimStr n0, trimStr s0)]) (pos + 1) res h q hq

theorem setCall_malformed {mc : Str → Bool} {b : FlagBuilder} {s : Str} {i : Nat} {seg : Str}
    (h : setCall mc b s = .error (.malformedEntry i seg)) :
    b.segCount ≤ i ∧ (splitSemi s)[i - b.segCount]? = some seg ∧ sideEmpty seg = true := by
  unfold setCall at h
  split_ifs at h with htrim
  rcases hp : parseSegs mc b.entries [] b.segCount (splitSemi s) with e | news
  · rw [hp] at h
    have he : e = .malformedEntry i seg := Except.error.inj h
    subst he
    exact parseSegs_malformed mc b.entries (splitSemi s) [] b.segCount i seg hp
  · rw [hp] at h
    exact Except.noConfusion h

theorem setCall_ok_no_sideEmpty {mc : Str → Bool} {b : FlagBuilder} {s : Str} {b2 : FlagBuilder}
    (htrim : trimStr s ≠ []) (h : setCall mc b s = .ok b2) :
    ∀ p ∈ splitSemi s, sideEmpty p = false := by
  unfold setCall at h
  rw [if_neg htrim] at h
  rcases hp : parseSegs mc b.entries [] b.segCount (splitSemi s) with e | news
  · rw [hp] at h
    exact Except.noConfusion h
  · exact parseSegs_ok_no_sideEmpty mc b.entries (splitSemi s) [] b.segCount news hp

/-! ## Bucket lemmas for the `markblocks` tool -/

theorem uploadMarkForBlock_preserves {mark : Str → Str} {fn : Str} {dr : Bool}
    {bkt : Bucket} {b : Str} {p : Str} {d : Str} (hget : bucketGet p bkt = some d) :
    bucketGet p (uploadMarkForBlock mark fn dr bkt b) = some d := by
  unfold uploadMarkForBlock
  split_ifs with h1 h2 h3
  · exact hget
  · exact hget
  · exact hget
  · have hne : markFilenameFor b fn ≠ p := by
      intro he
      rw [objExists, he, hget] at h2
      exact h2 rfl
    simp only [upload, bucketGet, if_neg hne]
    exact hget

theorem uploadMarks_preserves {mark : Str → Str} {fn : Str} {dr : Bool} {p : Str} {d : Str} :
    ∀ (ulids : List Str) (bkt : Bucket), bucketGet p bkt = some d →
      bucketGet p (uploadMarks mark fn dr ulids bkt) = some d := by
  intro ulids
  induction ulids with
  | nil => intro bkt hget; exact hget
  | cons b ulids' ih =>
    intro bkt hget
    exact ih (uploadMarkForBlock mark fn dr bkt b) (uploadMarkForBlock_preserves hget)

theorem lookupTenant_isSome (u : Str) : ∀ (l : List (Str × TrackerSet)),
    (lookupTenant u l).isSome = true ↔ u ∈ l.map Prod.fst := by
  intro l
  induction l with
  | nil => simp [lookupTenant]
  | cons e rest ih =>
    rcases e with ⟨k, v⟩
    by_cases hk : k = u
    · subst hk
      simp [lookupTenant]
    · have hku : ¬(u = k) := fun h => hk h.symm
      simp [lookupTenant, if_neg hk, ih, List.mem_cons, hku]

/-! ## Claim theorems -/

/-- C1 (counterexample): the round-trip property fails as stated for TrackerSets
built from a valid mapping: a mapping whose matcher source contains `;` (such
as `{;}`, accepted by the brace compiler), or whose tracker name contains `:`,
constructs successfully, but parsing its canonical text fails. -/
theorem c1_roundtrip_counterexample :
    newConfig braceCompiles cexMapSemi = .ok [(aName, semiSrc)] ∧
    setCall braceCompiles freshBuilder (canonicalText [(aName, semiSrc)]) =
      .error (.invalidMatcher braceOnly) ∧
    newConfig braceCompiles cexMapColon = .ok [(abName, xSrc)] ∧
    setCall braceCompiles freshBuilder (canonicalText [(abName, xSrc)]) =
      .error (.invalidMatcher bColonX) := by
  decide

/-- C1 (amended): round-trip holds for every TrackerSet reachable from flag
parsing (accumulated over any number of `Set` calls from the fresh builder),
and for every TrackerSet built from a mapping whose trimmed names contain no
`:` or `;` and whose trimmed sources contain no `;`: parsing the canonical
text succeeds and yields a TrackerSet equal to the original by canonical-form
equality. -/
theorem c1_roundtrip :
    (∀ mc : Str → Bool, GoodConfig mc freshBuilder.entries) ∧
    (∀ (mc : Str → Bool) (b b2 : FlagBuilder) (s : Str), GoodConfig mc b.entries →
        setCall mc b s = .ok b2 → GoodConfig mc b2.entries) ∧
    (∀ (mc : Str → Bool) (m : List (Str × Str)) (ts : TrackerSet), newConfig mc m = .ok ts →
        (∀ e ∈ m, ':' ∉ trimStr e.1 ∧ ';' ∉ trimStr e.1 ∧ ';' ∉ trimStr e.2) →
        GoodConfig mc ts) ∧
    (∀ (mc : Str → Bool) (ts : TrackerSet), GoodConfig mc ts →
        ∃ b2, setCall mc freshBuilder (canonicalText ts) = .ok b2 ∧ tsEq b2.entries ts) := by
  refine ⟨?_, ?_, ?_, ?_⟩
  · intro mc
    exact goodConfig_nil mc
  · intro mc b b2 s hg h
    exact setCall_good h hg
  · intro mc m ts h hcond
    exact newConfig_good mc m ts h hcond
  · intro mc ts hg
    exact roundtrip_good mc ts hg

/-- C1 (witness): the round-trip theorem applied to the concrete TrackerSet
holding tracker `foo` with source `{foo="bar"}` under the brace compiler. -/
theorem c1_roundtrip_witness :
    GoodConfig braceCompiles wTs1 ∧
    (∃ b2, setCall braceCompiles freshBuilder (canonicalText wTs1) = .ok b2 ∧
      tsEq b2.entries wTs1) :=
  ⟨by decide, c1_roundtrip.2.2.2 braceCompiles wTs1 (by decide)⟩

/-- C2: TrackerSet equality is canonical-text equality by definition;
construction from permuted mappings yields equal TrackerSets; and the three
construction paths (flag text, mapping, document with the pairs in another
order) tried on `foo:{foo='bar'};baz:{baz='bar'}` are mutually equal while a
TrackerSet with an additional tracker differs from all of them. -/
theorem c2_equality :
    (∀ a b : TrackerSet, tsEq a b ↔ canonicalText a = canonicalText b) ∧
    (∀ (mc : Str → Bool) (m1 m2 : List (Str × Str)) (ts1 ts2 : TrackerSet),
        m1.Perm m2 → newConfig mc m1 = .ok ts1 → newConfig mc m2 = .ok ts2 →
        tsEq ts1 ts2) ∧
    (setCall braceCompiles freshBuilder flagText2 = .ok builder2 ∧
     newConfig braceCompiles map2 = .ok map2 ∧
     unmarshalTrackerSet braceCompiles doc2 = .ok map2r ∧
     unmarshalTrackerSet braceCompiles docExtra = .ok tsExtra ∧
     tsEq builder2.entries map2 ∧ tsEq map2 map2r ∧ tsEq builder2.entries map2r ∧
     ¬ tsEq tsExtra builder2.entries ∧ ¬ tsEq tsExtra map2 ∧ ¬ tsEq tsExtra map2r) := by
  refine ⟨fun a b => Iff.rfl, ?_, by decide⟩
  intro mc m1 m2 ts1 ts2 hperm h1 h2
  have e1 := newConfig_eq_map mc m1 ts1 h1
  have e2 := newConfig_eq_map mc m2 ts2 h2
  have hp : ts1.Perm ts2 := by
    rw [e1, e2]
    exact hperm.map _
  exact canonical_perm hp (newConfig_nodup mc m1 ts1 h1)

/-- C2 (witness): order independence applied to the two concrete mapping
orders of the `foo` / `baz` trackers. -/
theorem c2_equality_witness :
    map2.Perm map2r ∧ tsEq map2 map2r :=
  ⟨by decide, c2_equality.2.1 braceCompiles map2 map2r map2 map2r (by decide) (by decide) (by decide)⟩

/-- C3: a DuplicateTracker error is reported with `sameCall = false` exactly
when the name came from a previous accumulating call; the two wordings are
distinct for every name; and on the concrete inputs, a duplicate inside one
call reports "provided twice" while a duplicate across calls reports
"provided more than once", with the exact messages of the test file. -/
theorem c3_duplicate_wording :
    (∀ (mc : Str → Bool) (b : FlagBuilder) (s n : Str) (sc : Bool),
        setCall mc b s = .error (.duplicateTracker n sc) →
        (sc = false ↔ n ∈ names b.entries)) ∧
    (∀ n : Str, (TrackerError.duplicateTracker n true).message ≠
        (TrackerError.duplicateTracker n false).message) ∧
    (setCall braceCompiles freshBuilder dupSameFlag = .error (.duplicateTracker fooName true) ∧
     (TrackerError.duplicateTracker fooName true).message = expectedDupTwiceMsg ∧
     setCall braceCompiles freshBuilder dupFlag1 = .ok cb3 ∧
     setCall braceCompiles cb3 dupFlag2 = .error (.duplicateTracker fooName false) ∧
     (TrackerError.duplicateTracker fooName false).message = expectedDupMoreMsg) := by
  refine ⟨?_, ?_, by decide⟩
  · intro mc b s n sc h
    exact setCall_dup h
  · intro n heq
    have heq2 : msgDupPre ++ (n ++ msgDupTwice) = msgDupPre ++ (n ++ msgDupMore) := heq
    have heq3 : n ++ msgDupTwice = n ++ msgDupMore := List.append_cancel_left heq2
    have heq4 : msgDupTwice = msgDupMore := List.append_cancel_left heq3
    exact absurd heq4 (by decide)

/-- C3 (witness): the cross-call soundness statement applied to the concrete
builder that already holds `foo` from a previous call. -/
theorem c3_duplicate_wording_witness :
    (false = false ↔ fooName ∈ names cb3.entries) :=
  c3_duplicate_wording.1 braceCompiles cb3 dupFlag2 fooName false (by decide)

/-- C4: a MalformedEntry error always echoes the original untrimmed segment at
its zero-based position counted across all accumulating calls, and the cited
segment really has an empty side after trimming; conversely a successful
non-empty call has no side-empty segment; concretely, `foo:` fails at
position 0 on a fresh builder and at position 1 after a one-segment call,
with the exact messages of the test file. -/
theorem c4_malformed_entry :
    (∀ (mc : Str → Bool) (b : FlagBuilder) (s : Str) (i : Nat) (seg : Str),
        setCall mc b s = .error (.malformedEntry i seg) →
        b.segCount ≤ i ∧ (splitSemi s)[i - b.segCount]? = some seg ∧ sideEmpty seg = true) ∧
    (∀ (mc : Str → Bool) (b : FlagBuilder) (s : Str) (b2 : FlagBuilder),
        trimStr s ≠ [] → setCall mc b s = .ok b2 →
        ∀ p ∈ splitSemi s, sideEmpty p = false) ∧
    (setCall braceCompiles freshBuilder fooColonFlag = .error (.malformedEntry 0 fooColonFlag) ∧
     (TrackerError.malformedEntry 0 fooColonFlag).message = expectedMalformedMsg ∧
     setCall braceCompiles freshBuilder aFlag = .ok cb4 ∧
     setCall braceCompiles cb4 fooColonFlag = .error (.malformedEntry 1 fooColonFlag) ∧
     (TrackerError.malformedEntry 1 fooColonFlag).message = expectedMalformedMsg1) := by
  refine ⟨?_, ?_, by decide⟩
  · intro mc b s i seg h
    exact setCall_malformed h
  · intro mc b s b2 htrim h
    exact setCall_ok_no_sideEmpty htrim h

/-- C4 (witness): the soundness statement applied to the concrete failing
input `foo:` on a fresh builder. -/
theorem c4_malformed_entry_witness :
    freshBuilder.segCount ≤ 0 ∧
    (splitSemi fooColonFlag)[0 - freshBuilder.segCount]? = some fooColonFlag ∧
    sideEmpty fooColonFlag = true :=
  c4_malformed_entry.1 braceCompiles freshBuilder fooColonFlag 0 fooColonFlag (by decide)

/-- C5: parsing the empty flag string succeeds on any builder state and
yields the empty TrackerSet, which is the TrackerSet built from the empty
mapping, and the two are equal by canonical form. -/
theorem c5_empty_input :
    (∀ (mc : Str → Bool) (b : FlagBuilder),
        setCall mc b [] = .ok { entries := [], segCount := b.segCount }) ∧
    (∀ mc : Str → Bool, newConfig mc [] = .ok ([] : TrackerSet)) ∧
    tsEq [] [] := by
  refine ⟨?_, fun mc => rfl, rfl⟩
  intro mc b
  rfl

/-- C5 (witness): the empty-input statement applied to the brace compiler and
the fresh builder. -/
theorem c5_empty_input_witness :
    setCall braceCompiles freshBuilder [] = .ok { entries := [], segCount := 0 } :=
  c5_empty_input.1 braceCompiles freshBuilder

/-- C6: resolving a tenant returns exactly the tenant-specific TrackerSet when
the tenant is a key of the mapping (lookup succeeds iff the tenant is a key),
and the default otherwise; the result is always one of the two, so no merging
can occur; concretely, the test resolver sends tenant `1` to its override and
tenant `5` to the default. -/
theorem c6_resolver_fallback :
    (∀ (o : OverrideResolver) (u : Str) (t : TrackerSet),
        lookupTenant u o.TenantSpecific = some t → MatchersConfigForUser o u = t) ∧
    (∀ (o : OverrideResolver) (u : Str),
        lookupTenant u o.TenantSpecific = none → MatchersConfigForUser o u = o.Default) ∧
    (∀ (o : OverrideResolver) (u : Str),
        (lookupTenant u o.TenantSpecific).isSome = true ↔
          u ∈ o.TenantSpecific.map Prod.fst) ∧
    (∀ (o : OverrideResolver) (u : Str),
        MatchersConfigForUser o u = o.Default ∨
        ∃ t, lookupTenant u o.TenantSpecific = some t ∧ MatchersConfigForUser o u = t) ∧
    (MatchersConfigForUser r6 oneStr = tTs ∧ MatchersConfigForUser r6 fiveStr = dTs) := by
  refine ⟨?_, ?_, ?_, ?_, by decide⟩
  · intro o u t h
    unfold MatchersConfigForUser
    rw [h]
  · intro o u h
    unfold MatchersConfigForUser
    rw [h]
  · intro o u
    exact lookupTenant_isSome u o.TenantSpecific
  · intro o u
    rcases hl : lookupTenant u o.TenantSpecific with _ | t
    · left
      unfold MatchersConfigForUser
      rw [hl]
    · right
      refine ⟨t, rfl, ?_⟩
      unfold MatchersConfigForUser
      rw [hl]

/-- C6 (witness): the hit case applied to the concrete resolver of the test
(default `foo`/`bar` trackers, tenant `1` overridden). -/
theorem c6_resolver_fallback_witness :
    lookupTenant oneStr r6.TenantSpecific = some tTs ∧ MatchersConfigForUser r6 oneStr = tTs :=
  ⟨by decide, c6_resolver_fallback.1 r6 oneStr tTs (by decide)⟩

/-- C7: `Get()` never fails: a nil provider yields `none`, a provider whose
supplier is not wired yields `none`, and a provider with a live supplier
yields exactly what the supplier returns. -/
theorem c7_provider_get :
    providerGet none = none ∧
    (∀ p : OverrideSnapshotProvider, p.getter = none → providerGet (some p) = none) ∧
    (∀ g : Unit → Option OverrideResolver, providerGet (some { getter := some g }) = g ()) := by
  refine ⟨rfl, ?_, fun g => rfl⟩
  intro p hp
  simp only [providerGet, hp]

/-- C7 (witness): the three cases applied to concrete providers: one with no
supplier and one whose supplier returns the empty resolver. -/
theorem c7_provider_get_witness :
    providerGet (some { getter := none }) = none ∧
    providerGet (some { getter := some gSample }) = gSample () :=
  ⟨c7_provider_get.2.1 { getter := none } rfl, c7_provider_get.2.2 gSample⟩

/-- C8: unmarshalling a TrackerSet document is exactly mapping construction:
a document wrapping any mapping unmarshals to `newConfig` of that mapping
(the shared validation routine), a non-mapping document and a document with a
nested-mapping value fail with SchemaError, every entry accepted by the flag
path passes the mapping path's entry validation, and on the concrete inputs
the valid document equals the mapping-built TrackerSet while the document
with source `123` is rejected by matcher compilation. -/
theorem c8_unmarshal_refinement :
    (∀ (mc : Str → Bool) (m : List (Str × Str)),
        unmarshalTrackerSet mc (Doc.map (m.map (fun e => (e.1, Doc.str e.2)))) =
          newConfig mc m) ∧
    (∀ (mc : Str → Bool) (s : Str),
        unmarshalTrackerSet mc (Doc.str s) = .error .schemaError) ∧
    (∀ (mc : Str → Bool) (k : Str) (d rest : List (Str × Doc)),
        unmarshalTrackerSet mc (Doc.map ((k, Doc.map d) :: rest)) = .error .schemaError) ∧
    (∀ (mc : Str → Bool) (b b2 : FlagBuilder) (s : Str), GoodConfig mc b.entries →
        setCall mc b s = .ok b2 → ∀ e ∈ b2.entries, validateEntry mc e.1 e.2 = .ok e) ∧
    (unmarshalTrackerSet braceCompiles doc2 = .ok map2r ∧
     newConfig braceCompiles map2r = .ok map2r ∧
     tsEq map2r map2r ∧
     unmarshalTrackerSet braceCompiles c8BadDoc = .error (.invalidMatcher num123)) := by
  refine ⟨?_, fun mc s => rfl, fun mc k d rest => rfl, ?_, by decide⟩
  · intro mc m
    exact unmarshalTrackerSet_wrap mc m
  · intro mc b b2 s hg h e he
    obtain ⟨_, hall⟩ := setCall_good h hg
    obtain ⟨hge, hmc⟩ := hall e he
    obtain ⟨h1, h2, h3, h4, _, _, _⟩ := goodEntry_iff.mp hge
    simp only [validateEntry, h3, h4]
    rw [if_neg (by
      intro hor
      rcases hor with hx | hx
      · exact h1 hx
      · exact h2 hx)]
    rw [if_pos hmc]

/-- C8 (witness): the shared-routine statement applied to the concrete
`foo` / `baz` mapping of the test. -/
theorem c8_unmarshal_refinement_witness :
    unmarshalTrackerSet braceCompiles
      (Doc.map (map2r.map (fun e => (e.1, Doc.str e.2)))) = newConfig braceCompiles map2r :=
  c8_unmarshal_refinement.1 braceCompiles map2r

/-- C9: unmarshalling an override document with both fields present produces
exactly the TrackerSet unmarshalled from `default` and the tenant mapping
unmarshalled pointwise; an absent `default` yields the empty TrackerSet and
an absent `tenant_specific` yields the empty mapping; each tenant key of the
document is resolved to the TrackerSet built from that tenant's mapping; and
the concrete runtime-override document of the test unmarshals to the expected
resolver. -/
theorem c9_overrides_unmarshal :
    (∀ (mc : Str → Bool) (dd : Doc) (tm : List (Str × Doc)) (r : OverrideResolver),
        unmarshalOverrides mc { defaultDoc := some dd, tenantSpecific := some tm } = .ok r →
        unmarshalTrackerSet mc dd = .ok r.Default ∧
        unmarshalTenants mc tm = .ok r.TenantSpecific) ∧
    (∀ (mc : Str → Bool) (tm : List (Str × Doc)) (r : OverrideResolver),
        unmarshalOverrides mc { defaultDoc := none, tenantSpecific := some tm } = .ok r →
        r.Default = []) ∧
    (∀ (mc : Str → Bool) (dd : Doc) (r : OverrideResolver),
        unmarshalOverrides mc { defaultDoc := some dd, tenantSpecific := none } = .ok r →
        r.TenantSpecific = []) ∧
    (∀ (mc : Str → Bool) (tm : List (Str × Doc)) (l : List (Str × TrackerSet)),
        unmarshalTenants mc tm = .ok l → (tm.map Prod.fst).Nodup →
        ∀ k d, (k, d) ∈ tm →
          ∃ c, unmarshalTrackerSet mc d = .ok c ∧ lookupTenant k l = some c) ∧
    (unmarshalOverrides braceCompiles c9Doc = .ok c9Resolver ∧
     newConfig braceCompiles c9DefaultMap = .ok c9DefaultMap ∧
     tsEq c9Resolver.Default c9DefaultMap ∧
     newConfig braceCompiles c9TenantMap = .ok c9TenantMap ∧
     lookupTenant oneStr c9Resolver.TenantSpecific = some c9TenantMap) := by
  refine ⟨?_, ?_, ?_, ?_, by decide⟩
  · intro mc dd tm r h
    simp only [unmarshalOverrides] at h
    rcases hu : unmarshalTrackerSet mc dd with err | dflt
    · simp only [hu] at h
      exact Except.noConfusion h
    · simp only [hu] at h
      rcases ht : unmarshalTenants mc tm with err2 | ts
      · simp only [ht] at h
        exact Except.noConfusion h
      · simp only [ht] at h
        have hr : r = { Default := dflt, TenantSpecific := ts } := (Except.ok.inj h).symm
        subst hr
        exact ⟨rfl, rfl⟩
  · intro mc tm r h
    simp only [unmarshalOverrides] at h
    rcases ht : unmarshalTenants mc tm with err2 | ts
    · simp only [ht] at h
      exact Except.noConfusion h
    · simp only [ht] at h
      have hr : r = { Default := [], TenantSpecific := ts } := (Except.ok.inj h).symm
      rw [hr]
  · intro mc dd r h
    simp only [unmarshalOverrides] at h
    rcases hu : unmarshalTrackerSet mc dd with err | dflt
    · simp only [hu] at h
      exact Except.noConfusion h
    · simp only [hu] at h
      have hr : r = { Default := dflt, TenantSpecific := [] } := (Except.ok.inj h).symm
      rw [hr]
  · intro mc tm l h hnd k d hd
    exact unmarshalTenants_lookup mc tm l h hnd k d hd

/-- C9 (witness): the both-fields statement applied to the concrete document
of the test (`integrations/...` defaults, tenant `1` overrides). -/
theorem c9_overrides_unmarshal_witness :
    unmarshalTrackerSet braceCompiles
      (Doc.map [(apolloName, Doc.str apolloSrc), (caddyName, Doc.str caddySrc)]) =
      .ok c9Resolver.Default ∧
    unmarshalTenants braceCompiles
      [(oneStr, Doc.map [(teamAName, Doc.str teamASrc), (teamBName, Doc.str teamBSrc)])] =
      .ok c9Resolver.TenantSpecific :=
  c9_overrides_unmarshal.1 braceCompiles
    (Doc.map [(apolloName, Doc.str apolloSrc), (caddyName, Doc.str caddySrc)])
    [(oneStr, Doc.map [(teamAName, Doc.str teamASrc), (teamBName, Doc.str teamBSrc)])]
    c9Resolver (by decide)

/-- C10: the `uploadMarks` loop never touches the bucket for a block whose
`meta.json` is absent, whose marker already exists, or when dry-run is set;
it uploads the marker exactly when all three conditions hold; a changed
bucket implies those conditions; and any object already present keeps its
exact contents across a whole run — an existing marker is never
overwritten. -/
theorem c10_upload_marks :
    (∀ (mark : Str → Str) (fn : Str) (dr : Bool) (bkt : Bucket) (b : Str),
        objExists (metaFilename b) bkt = false →
        uploadMarkForBlock mark fn dr bkt b = bkt) ∧
    (∀ (mark : Str → Str) (fn : Str) (dr : Bool) (bkt : Bucket) (b : Str),
        objExists (markFilenameFor b fn) bkt = true →
        uploadMarkForBlock mark fn dr bkt b = bkt) ∧
    (∀ (mark : Str → Str) (fn : Str) (bkt : Bucket) (b : Str),
        uploadMarkForBlock mark fn true bkt b = bkt) ∧
    (∀ (mark : Str → Str) (fn : Str) (dr : Bool) (bkt : Bucket) (b : Str),
        objExists (metaFilename b) bkt = true →
        objExists (markFilenameFor b fn) bkt = false → dr = false →
        uploadMarkForBlock mark fn dr bkt b =
          upload (markFilenameFor b fn) (mark b) bkt) ∧
    (∀ (mark : Str → Str) (fn : Str) (dr : Bool) (bkt : Bucket) (b : Str),
        uploadMarkForBlock mark fn dr bkt b ≠ bkt →
        objExists (metaFilename b) bkt = true ∧
        objExists (markFilenameFor b fn) bkt = false ∧ dr = false) ∧
    (∀ (mark : Str → Str) (fn : Str) (dr : Bool) (ulids : List Str) (bkt : Bucket) (p d : Str),
        bucketGet p bkt = some d →
        bucketGet p (uploadMarks mark fn dr ulids bkt) = some d) := by
  refine ⟨?_, ?_, ?_, ?_, ?_, ?_⟩
  · intro mark fn dr bkt b h
    unfold uploadMarkForBlock
    rw [if_pos (by rw [h]; rfl)]
  · intro mark fn dr bkt b h
    unfold uploadMarkForBlock
    split_ifs <;> rfl
  · intro mark fn bkt b
    unfold uploadMarkForBlock
    split_ifs with h1 h2 h3 <;> first | rfl | exact absurd rfl h3
  · intro mark fn dr bkt b hmeta hmark hdr
    unfold uploadMarkForBlock
    rw [if_neg (by intro hx; rw [hmeta] at hx; exact Bool.noConfusion hx)]
    rw [if_neg (by intro hx; rw [hmark] at hx; exact Bool.noConfusion hx)]
    rw [if_neg (by intro hx; rw [hdr] at hx; exact Bool.noConfusion hx)]
  · intro mark fn dr bkt b hne
    unfold uploadMarkForBlock at hne
    split_ifs at hne with h1 h2 h3
    · exact absurd rfl hne
    · exact absurd rfl hne
    · exact absurd rfl hne
    · refine ⟨?_, ?_, ?_⟩
      · rcases Bool.eq_false_or_eq_true (objExists (metaFilename b) bkt) with hx | hx
        · exact hx
        · exact absurd (by rw [hx]; rfl) h1
      · rcases Bool.eq_false_or_eq_true (objExists (markFilenameFor b fn) bkt) with hx | hx
        · exact absurd hx h2
        · exact hx
      · rcases Bool.eq_false_or_eq_true dr with hx | hx
        · exact absurd hx h3
        · exact hx
  · intro mark fn dr ulids bkt p d hget
    exact uploadMarks_preserves ulids bkt hget

/-- C10 (witness): a concrete run over two blocks: the block with a
pre-existing deletion marker keeps its old marker data, and the block with
only `meta.json` gets the freshly built marker uploaded. -/
theorem c10_upload_marks_witness :
    bucketGet (markFilenameFor blockB delMarkFile) c10Bucket = some oldMarkData ∧
    bucketGet (markFilenameFor blockB delMarkFile)
      (uploadMarks c10Mark delMarkFile false [blockA, blockB] c10Bucket) = some oldMarkData ∧
    objExists (metaFilename blockA) c10Bucket = true ∧
    objExists (markFilenameFor blockA delMarkFile) c10Bucket = false ∧
    uploadMarkForBlock c10Mark delMarkFile false c10Bucket blockA =
      upload (markFilenameFor blockA delMarkFile) (c10Mark blockA) c10Bucket :=
  ⟨by decide,
   c10_upload_marks.2.2.2.2.2 c10Mark delMarkFile false [blockA, blockB] c10Bucket
     (markFilenameFor blockB delMarkFile) oldMarkData (by decide),
   by decide, by decide,
   c10_upload_marks.2.2.2.1 c10Mark delMarkFile false c10Bucket blockA
     (by decide) (by decide) rfl⟩
